import Mathlib

/-!
Verification of the ai-council conversation engine.

JavaScript strings are modelled as `List Char` (`JStr`).  Pure text
transforms (the output sanitizer of `src/council.ts` / `part_004`) are
translated rule by rule from the regex chain in the source.  Stateful
async code (`runConversation`, `streamOllamaChat`, `getModeratorDecision`)
is translated into explicit state passing, with every backend call an
oracle parameter (`Except JStr JStr` results, indexed where several calls
occur), since the network is outside the program.
-/

abbrev JStr := List Char

/-- JavaScript `\s` on the ASCII range (space, tab, newline, carriage
return, vertical tab, form feed). -/
def isJsSpace (c : Char) : Bool :=
  c = ' ' || c = '\t' || c = '\n' || c = '\r' || c = '\x0b' || c = '\x0c'

/-- JavaScript `\w`: ASCII letters, digits, underscore. -/
def isWordChar (c : Char) : Bool :=
  c.isAlpha || c.isDigit || c = '_'

/-- `String.prototype.trimStart`. -/
def trimStartL (s : JStr) : JStr := s.dropWhile isJsSpace

/-- `String.prototype.trim`. -/
def trimL (s : JStr) : JStr :=
  ((s.dropWhile isJsSpace).reverse.dropWhile isJsSpace).reverse

/-- Case-insensitive literal match: if `s` starts with `pat` (ignoring
case), return the rest of `s`. -/
def matchCI : JStr → JStr → Option JStr
  | [], s => some s
  | _ :: _, [] => none
  | p :: ps, c :: cs => if c.toLower = p.toLower then matchCI ps cs else none

/-- Case-sensitive literal match. -/
def matchLit : JStr → JStr → Option JStr
  | [], s => some s
  | _ :: _, [] => none
  | p :: ps, c :: cs => if c = p then matchLit ps cs else none

/-!
## Output sanitizer (`cleanSpeakerOutput`, `formatAgentOutput` and helpers)

Each definition below embeds one regex replacement from the source chain.
The JavaScript regex engine's leftmost-match, greedy semantics are spelled
out; where a pattern admits no backtracking (the usual case here: `\s*`
runs followed by non-space literals) the translation is a direct
deterministic scan.
-/

/-- One pass of a JavaScript global regex replace.  `tryAt prevW s`
attempts a match at the current position (`prevW` says whether the
character immediately before this position in the original string is a
word character, for lookbehind and word-boundary tests); on success it
returns the replacement, the word-character status of the last character
of the matched span, and the rest of the input after the span.  Every
matcher used here consumes at least one character, so fuel
`s.length + 1` suffices. -/
def scanReplace (tryAt : Bool → JStr → Option (JStr × Bool × JStr)) :
    Nat → Bool → JStr → JStr
  | 0, _, s => s
  | _ + 1, _, [] => []
  | f + 1, prevW, c :: rest =>
    match tryAt prevW (c :: rest) with
    | some (rep, w, rest') => rep ++ scanReplace tryAt f w rest'
    | none => c :: scanReplace tryAt f (isWordChar c) rest

/-- `cleaned.replace(/^\s*Me\s*[:,\-]\s*\x2f, "")` (rule 1 of
`cleanSpeakerOutput`). -/
def cleanRule1 (s : JStr) : JStr :=
  match matchCI "me".data (s.dropWhile isJsSpace) with
  | some r =>
    match r.dropWhile isJsSpace with
    | c :: r2 =>
      if c = ':' || c = ',' || c = '-' then r2.dropWhile isJsSpace else s
    | [] => s
  | none => s

/-- `cleaned.replace(/^\s*Me\s+(?=[A-Za-z])\x2fi, "")` (rule 2). -/
def cleanRule2 (s : JStr) : JStr :=
  match matchCI "me".data (s.dropWhile isJsSpace) with
  | some r =>
    if (r.takeWhile isJsSpace).isEmpty then s
    else
      match r.dropWhile isJsSpace with
      | c :: _ => if c.isAlpha then r.dropWhile isJsSpace else s
      | [] => s
  | none => s

/-- `cleaned.replace(/^\s*Me,\s*I\s+think\b\x2fi, "I think")` (rule 3). -/
def cleanRule3 (s : JStr) : JStr :=
  match matchCI "me,".data (s.dropWhile isJsSpace) with
  | some r =>
    match matchCI "i".data (r.dropWhile isJsSpace) with
    | some r2 =>
      if (r2.takeWhile isJsSpace).isEmpty then s
      else
        match matchCI "think".data (r2.dropWhile isJsSpace) with
        | some r3 =>
          match r3 with
          | [] => "I think".data
          | c :: _ => if isWordChar c then s else "I think".data ++ r3
        | none => s
    | none => s
  | none => s

/-- `cleaned.replace(/^\s*me\s+would\s+like\b\x2fi, "I would like")`
(rule 4). -/
def cleanRule4 (s : JStr) : JStr :=
  match matchCI "me".data (s.dropWhile isJsSpace) with
  | some r =>
    if (r.takeWhile isJsSpace).isEmpty then s
    else
      match matchCI "would".data (r.dropWhile isJsSpace) with
      | some r2 =>
        if (r2.takeWhile isJsSpace).isEmpty then s
        else
          match matchCI "like".data (r2.dropWhile isJsSpace) with
          | some r3 =>
            match r3 with
            | [] => "I would like".data
            | c :: _ => if isWordChar c then s else "I would like".data ++ r3
          | none => s
      | none => s
  | none => s

/-- Body `\s*\bme\s*:\s*` of rule 5; `boundaryOk` says whether `\b`
holds when the leading whitespace run is empty.  Returns whether the
matched span contains a newline, and the rest of the input. -/
def me5Body (boundaryOk : Bool) (t : JStr) : Option (Bool × JStr) :=
  let sp := t.takeWhile isJsSpace
  if sp.isEmpty && !boundaryOk then none
  else
    match matchCI "me".data (t.dropWhile isJsSpace) with
    | some r =>
      let sp2 := r.takeWhile isJsSpace
      match r.dropWhile isJsSpace with
      | ':' :: r2 =>
        let sp3 := r2.takeWhile isJsSpace
        some ((sp ++ sp2 ++ sp3).contains '\n', r2.dropWhile isJsSpace)
      | _ => none
    | none => none

/-- Matcher for rule 5,
`cleaned.replace(/([,;])?\s*\bme\s*:\s*\x2fgi, ...)`: a leaked `me:`
fragment, with punctuation-aware replacement (`punct + " "` when a comma
or semicolon was captured, otherwise a newline if the span crossed a
line break, else a single space). -/
def tryMe5 (prevW : Bool) (s : JStr) : Option (JStr × Bool × JStr) :=
  match s with
  | [] => none
  | c :: rest =>
    if c = ',' || c = ';' then
      match me5Body true rest with
      | some (_, rest') => some ([c, ' '], false, rest')
      | none => none
    else
      match me5Body (!prevW) s with
      | some (hasNL, rest') =>
        some (if hasNL then ['\n'] else [' '], false, rest')
      | none => none

/-- The verb alternatives of rule 6's lookahead. -/
def me6Verbs : List JStr :=
  ["agree".data, "acknowledge".data, "appreciate".data, "believe".data,
   "think".data, "want".data, "would".data, "could".data, "should".data,
   "can".data, "need".data, "accept".data, "understand".data,
   "support".data, "urge".data]

/-- `cleaned.replace(/^(\s*)Me(?=(agree|...)\b)\x2fi, leading + "I ")`
(rule 6). -/
def cleanRule6 (s : JStr) : JStr :=
  let sp := s.takeWhile isJsSpace
  match matchCI "me".data (s.dropWhile isJsSpace) with
  | some r =>
    if me6Verbs.any (fun v =>
        match matchCI v r with
        | some r2 =>
          match r2 with
          | [] => true
          | c :: _ => !isWordChar c
        | none => false) then
      sp ++ "I ".data ++ r
    else s
  | none => s

/-- `text.replace(/^\s*\[([^\]]+)\]\s*\x2fi, "")`: strip a leading
bracketed speaker tag.  This is both rule 7 of `cleanSpeakerOutput` and
the standalone `stripSpeakerArtifacts` of `formatAgentOutput`. -/
def stripSpeakerArtifacts (s : JStr) : JStr :=
  match s.dropWhile isJsSpace with
  | '[' :: r =>
    let inner := r.takeWhile (fun c => c ≠ ']')
    if inner.isEmpty then s
    else
      match r.dropWhile (fun c => c ≠ ']') with
      | ']' :: r2 => r2.dropWhile isJsSpace
      | _ => s
  | _ => s

/-- Matcher for rule 8,
`cleaned.replace(/\s*\[\d+\](?=[\s,.;:!?)]|$)\x2fg, "")`: bracketed
numeric citation markers. -/
def tryCite8 (_prevW : Bool) (s : JStr) : Option (JStr × Bool × JStr) :=
  match s.dropWhile isJsSpace with
  | '[' :: r =>
    let ds := r.takeWhile Char.isDigit
    if ds.isEmpty then none
    else
      match r.dropWhile Char.isDigit with
      | ']' :: r2 =>
        match r2 with
        | [] => some ([], false, [])
        | c :: _ =>
          if isJsSpace c || c = ',' || c = '.' || c = ';' || c = ':' ||
              c = '!' || c = '?' || c = ')' then
            some ([], false, r2)
          else none
      | _ => none
  | _ => none

/-- `cleaned.replace(/\n+References:\s*[\s\S]*$\x2fi, "")` (rule 9):
truncate at the first newline run followed by a `References:` header. -/
def refsRule9 : Nat → JStr → JStr
  | 0, s => s
  | _ + 1, [] => []
  | f + 1, c :: rest =>
    if c = '\n' then
      let run := (c :: rest).takeWhile (fun x => x = '\n')
      match matchCI "references:".data ((c :: rest).dropWhile (fun x => x = '\n')) with
      | some _ => []
      | none => run ++ refsRule9 f (rest.drop (run.length - 1))
    else c :: refsRule9 f rest

/-- `cleanSpeakerOutput` of `src/council.ts`: the nine-rule regex chain
followed by `trimStart()`. -/
def cleanSpeakerOutput (s : JStr) : JStr :=
  let c1 := cleanRule1 s
  let c2 := cleanRule2 c1
  let c3 := cleanRule3 c2
  let c4 := cleanRule4 c3
  let c5 := scanReplace tryMe5 (c4.length + 1) false c4
  let c6 := cleanRule6 c5
  let c7 := stripSpeakerArtifacts c6
  let c8 := scanReplace tryCite8 (c7.length + 1) false c7
  let c9 := refsRule9 c8.length c8
  trimStartL c9

/-- The leading-tag replacement of `normalizeSelfReference`:
`text.replace(new RegExp("^\\s*" + escaped + "\\s*[:\\-]\\s*", "i"), "")`.
`escapeRegExp` makes every character of the persona name literal, so the
pattern is a case-insensitive literal match on the name. -/
def normLeadingTag (name : JStr) (s : JStr) : JStr :=
  match matchCI name (s.dropWhile isJsSpace) with
  | some r =>
    match r.dropWhile isJsSpace with
    | c :: r2 => if c = ':' || c = '-' then r2.dropWhile isJsSpace else s
    | [] => s
  | none => s

/-- Matcher for the possessive replacement
`(?<!\w)NAME'?s(?!\w)` → `"my"` (global, case-insensitive). -/
def tryPossessive (name : JStr) (prevW : Bool) (s : JStr) : Option (JStr × Bool × JStr) :=
  if prevW then none
  else
    match matchCI name s with
    | some r =>
      match r with
      | '\'' :: c :: r2 =>
        if c.toLower = 's' then
          match r2 with
          | [] => some ("my".data, true, [])
          | d :: _ => if isWordChar d then none else some ("my".data, true, r2)
        else none
      | c :: r2 =>
        if c.toLower = 's' then
          match r2 with
          | [] => some ("my".data, true, [])
          | d :: _ => if isWordChar d then none else some ("my".data, true, r2)
        else none
      | [] => none
    | none => none

/-- Matcher for the standalone replacement
`(?<!\w)NAME(?!\w)` → `"I"` (global, case-insensitive).  Persona names
are validated non-empty by the loader; an empty name (whose JavaScript
pattern would admit zero-length matches) is treated as matching
nowhere. -/
def tryStandalone (name : JStr) (prevW : Bool) (s : JStr) : Option (JStr × Bool × JStr) :=
  if prevW || name.isEmpty then none
  else
    match matchCI name s with
    | some r =>
      let wlast :=
        match name.getLast? with
        | some c => isWordChar c
        | none => false
      match r with
      | [] => some ("I".data, wlast, [])
      | d :: _ => if isWordChar d then none else some ("I".data, wlast, r)
    | none => none

/-- `normalizeSelfReference` of `src/council.ts`: strip a leading
`Name:`/`Name-` tag, replace the possessive name by `my`, then the
standalone name by `I`, all word-boundary safe. -/
def normalizeSelfReference (name : JStr) (s : JStr) : JStr :=
  let u1 := normLeadingTag name s
  let u2 := scanReplace (tryPossessive name) (u1.length + 1) false u1
  scanReplace (tryStandalone name) (u2.length + 1) false u2

/-- `[^.]*\.\s*`: skip to the first period, consume it and any following
whitespace; fail if there is no period. -/
def afterSentence (s : JStr) : Option JStr :=
  match s.dropWhile (fun c => c ≠ '.') with
  | '.' :: r => some (r.dropWhile isJsSpace)
  | _ => none

/-- Cliché pattern 1:
`^I(?:'d| would)\s+like to\s+(?:respond|add|build)[^.]*\.\s*` → `""`. -/
def cliche1 (s : JStr) : JStr :=
  let cont := fun (r : JStr) =>
    if (r.takeWhile isJsSpace).isEmpty then none
    else
      match matchCI "like to".data (r.dropWhile isJsSpace) with
      | some r2 =>
        if (r2.takeWhile isJsSpace).isEmpty then none
        else
          let r3 := r2.dropWhile isJsSpace
          if (matchCI "respond".data r3).isSome || (matchCI "add".data r3).isSome ||
              (matchCI "build".data r3).isSome then
            afterSentence r3
          else none
      | none => none
  match s with
  | c :: r =>
    if c.toLower = 'i' then
      let branch :=
        match matchCI "'d".data r with
        | some r2 => cont r2
        | none =>
          match matchCI " would".data r with
          | some r2 => cont r2
          | none => none
      match branch with
      | some rest => rest
      | none => s
    else s
  | [] => s

/-- Cliché pattern 2:
`^I'm\s+glad\s+[A-Za-z]+(?:'s| has)?\s+(?:mentioned|raised)[^.]*\.\s*`
→ `""`.  The optional group backtracks to empty when its continuation
fails, as the JavaScript engine does. -/
def cliche2 (s : JStr) : JStr :=
  let verbCont := fun (t : JStr) =>
    if (t.takeWhile isJsSpace).isEmpty then none
    else
      let t2 := t.dropWhile isJsSpace
      if (matchCI "mentioned".data t2).isSome || (matchCI "raised".data t2).isSome then
        afterSentence t2
      else none
  match matchCI "i'm".data s with
  | some r =>
    if (r.takeWhile isJsSpace).isEmpty then s
    else
      match matchCI "glad".data (r.dropWhile isJsSpace) with
      | some r2 =>
        if (r2.takeWhile isJsSpace).isEmpty then s
        else
          let r3 := r2.dropWhile isJsSpace
          if (r3.takeWhile Char.isAlpha).isEmpty then s
          else
            let r4 := r3.dropWhile Char.isAlpha
            let branch :=
              match matchCI "'s".data r4 with
              | some r5 =>
                match verbCont r5 with
                | some rest => some rest
                | none => verbCont r4
              | none =>
                match matchCI " has".data r4 with
                | some r5 =>
                  match verbCont r5 with
                  | some rest => some rest
                  | none => verbCont r4
                | none => verbCont r4
            match branch with
            | some rest => rest
            | none => s
      | none => s
  | none => s

/-- Cliché pattern 3:
`^I(?:'d| would)\s+like to\s+respond to\s+[A-Za-z]+['’]s\s+(?:point|proposal|idea)[^.]*\.\s*`
→ `""`. -/
def cliche3 (s : JStr) : JStr :=
  let cont := fun (r : JStr) =>
    if (r.takeWhile isJsSpace).isEmpty then none
    else
      match matchCI "like to".data (r.dropWhile isJsSpace) with
      | some r2 =>
        if (r2.takeWhile isJsSpace).isEmpty then none
        else
          match matchCI "respond to".data (r2.dropWhile isJsSpace) with
          | some r3 =>
            if (r3.takeWhile isJsSpace).isEmpty then none
            else
              let r4 := r3.dropWhile isJsSpace
              if (r4.takeWhile Char.isAlpha).isEmpty then none
              else
                match r4.dropWhile Char.isAlpha with
                | q :: c :: r5 =>
                  if (q = '\'' || q = '’') && c.toLower = 's' then
                    if (r5.takeWhile isJsSpace).isEmpty then none
                    else
                      let r6 := r5.dropWhile isJsSpace
                      if (matchCI "point".data r6).isSome ||
                          (matchCI "proposal".data r6).isSome ||
                          (matchCI "idea".data r6).isSome then
                        afterSentence r6
                      else none
                  else none
                | _ => none
          | none => none
      | none => none
  match s with
  | c :: r =>
    if c.toLower = 'i' then
      let branch :=
        match matchCI "'d".data r with
        | some r2 => cont r2
        | none =>
          match matchCI " would".data r with
          | some r2 => cont r2
          | none => none
      match branch with
      | some rest => rest
      | none => s
    else s
  | [] => s

/-- `stripClichedLeadIn` of `src/council.ts`: the three patterns applied
in order, each once. -/
def stripClichedLeadIn (s : JStr) : JStr := cliche3 (cliche2 (cliche1 s))

/-- `formatAgentOutput` of `src/council.ts`: the full sanitization
pipeline with its non-empty fallback. -/
def formatAgentOutput (agentName : JStr) (text : JStr) : JStr :=
  let cleaned := cleanSpeakerOutput text
  let artifactFree := stripSpeakerArtifacts cleaned
  let normalized := normalizeSelfReference agentName artifactFree
  let stripped := stripClichedLeadIn normalized
  let trimmed := trimStartL stripped
  if trimmed.isEmpty then
    let fallback := trimL artifactFree
    if fallback.isEmpty then trimL cleaned else fallback
  else trimmed

/-!
## Moderator decision engine (`src/moderator.ts`)

The single backend call (`callOllamaChat`) and the platform JSON parser
are oracle parameters: `callResult` is the transport outcome and
`parseJSON` maps the returned text to a parsed JSON value (`none` models
a `JSON.parse` exception).  Persona fields other than `name` feed only
the prompt text, which flows into the oracle, so they are omitted. -/

structure PersonaConfig where
  name : JStr
deriving DecidableEq, Repr

structure ActivePanel where
  debaters : List PersonaConfig
  judge : PersonaConfig
deriving DecidableEq, Repr

/-- `ModeratorDecision` of `src/types.ts`; `reason := none` models the
absent optional field. -/
structure ModeratorDecision where
  nextSpeaker : JStr
  shouldConclude : Bool
  reason : Option JStr
deriving DecidableEq, Repr

/-- A parsed JSON value, the result of `JSON.parse`. -/
inductive JsValue where
  | null
  | bool (b : Bool)
  | num (n : Int)
  | str (s : JStr)
  | arr (elems : List JsValue)
  | obj (fields : List (JStr × JsValue))

/-- Property access on a parsed JSON object (keys are unique after
`JSON.parse`); `none` models `undefined`. -/
def jsGet (fields : List (JStr × JsValue)) (key : JStr) : Option JsValue :=
  (fields.find? (fun p => p.1 == key)).map (fun p => p.2)

/-- Order-preserving de-duplication, as `Array.from(new Set(xs))`. -/
def dedupKeepFirst : List JStr → List JStr
  | [] => []
  | x :: xs => x :: dedupKeepFirst (xs.filter (fun y => !(y == x)))
termination_by l => l.length
decreasing_by
  simp only [List.length_cons]
  exact Nat.lt_succ_of_le (List.length_filter_le _ _)

/-- The valid next-speaker set computed per call:
`Array.from(new Set([...debaterNames, judge.name]))`. -/
def moderatorAllowedSpeakers (panel : ActivePanel) : List JStr :=
  dedupKeepFirst (panel.debaters.map (fun p => p.name) ++ [panel.judge.name])

/-- `isValidModeratorDecision` of `src/moderator.ts`: the candidate is an
object whose `nextSpeaker` is a string in the allowed set, whose
`shouldConclude` is a boolean, and whose `reason` is absent or a
string.  (`null` fails the `!candidate` test; arrays pass
`typeof === "object"` but have no such named properties, so they fail
the field checks just as here.) -/
def isValidModeratorDecision (candidate : JsValue) (allowedSpeakers : List JStr) : Bool :=
  match candidate with
  | .obj fields =>
    (match jsGet fields "nextSpeaker".data with
     | some (.str s) => allowedSpeakers.contains s
     | _ => false) &&
    (match jsGet fields "shouldConclude".data with
     | some (.bool _) => true
     | _ => false) &&
    (match jsGet fields "reason".data with
     | none => true
     | some (.str _) => true
     | _ => false)
  | _ => false

/-- The shared fallback for an unparsable or schema-invalid moderator
payload. -/
def invalidFallback (panel : ActivePanel) : ModeratorDecision :=
  { nextSpeaker := panel.judge.name, shouldConclude := true,
    reason := some "Fallback: invalid JSON from moderator".data }

/-- `getModeratorDecision` of `src/moderator.ts`.  Total: every failure
mode of the call or of its payload collapses into a fallback decision,
never an exception. -/
def getModeratorDecision (panel : ActivePanel) (callResult : Except JStr JStr)
    (parseJSON : JStr → Option JsValue) : ModeratorDecision :=
  if panel.debaters.isEmpty then
    { nextSpeaker := panel.judge.name, shouldConclude := true,
      reason := some "Fallback: panel has no debaters".data }
  else
    let allowedSet := moderatorAllowedSpeakers panel
    match callResult with
    | .error message =>
      { nextSpeaker := panel.judge.name, shouldConclude := true,
        reason := some ("Fallback: moderator call failed (".data ++ message ++ ")".data) }
    | .ok raw =>
      match parseJSON raw with
      | some parsed =>
        if isValidModeratorDecision parsed allowedSet then
          match parsed with
          | .obj fields =>
            match jsGet fields "nextSpeaker".data, jsGet fields "shouldConclude".data with
            | some (.str ns), some (.bool sc) =>
              { nextSpeaker := ns, shouldConclude := sc,
                reason :=
                  match jsGet fields "reason".data with
                  | some (.str rs) => if 0 < (trimL rs).length then some rs else none
                  | _ => none }
            | _, _ => invalidFallback panel
          | _ => invalidFallback panel
        else invalidFallback panel
      | none => invalidFallback panel

/-!
## Streaming chat transport (`streamOllamaChat` of `src/ollamaClient.ts`)

The logical byte stream (after `TextDecoder`) is a list of character
chunks; `parse` is the oracle for `JSON.parse` on one complete line,
already projected to the two fields the code reads
(`message?.content ?? ""` and truthy `done`).  An exception inside the
`try` block is modelled by the `err` field (with `buffer` cleared, since
nothing reads it past the throw), wrapped at the end exactly as the
outer `catch` rethrows. -/

structure StreamPayload where
  content : JStr
  done : Bool

structure StreamState where
  buffer : JStr
  full : JStr
  toks : List JStr
  finished : Bool
  err : Option JStr
deriving DecidableEq, Repr

def initialStreamState : StreamState :=
  { buffer := [], full := [], toks := [], finished := false, err := none }

/-- `processLine`: trim, skip blanks, parse, emit the fragment (appended
to `fullText` and delivered to `onToken` when non-empty), record
`done`. -/
def processLine (parse : JStr → Option StreamPayload) (st : StreamState)
    (rawLine : JStr) : StreamState :=
  let line := trimL rawLine
  if line.isEmpty then st
  else
    match parse line with
    | none =>
      { st with err := some ("Failed to parse Ollama stream chunk: ".data ++ line),
                buffer := [] }
    | some payload =>
      let st1 :=
        if payload.content.isEmpty then st
        else { st with full := st.full ++ payload.content,
                       toks := st.toks ++ [payload.content] }
      if payload.done then { st1 with finished := true } else st1

/-- Split the buffer at the first newline (`buffer.indexOf("\n")`). -/
def splitAtNewline : JStr → Option (JStr × JStr)
  | [] => none
  | c :: rest =>
    if c = '\n' then some ([], rest)
    else
      match splitAtNewline rest with
      | some (l, r) => some (c :: l, r)
      | none => none

/-- The `while (true)` loop of `flushBuffer`: process complete lines
until none remains, stopping early (with the buffer discarded) once
`done` was seen or a line failed to parse. -/
def flushLines (parse : JStr → Option StreamPayload) : Nat → StreamState → StreamState
  | 0, st => st
  | f + 1, st =>
    if st.err.isSome then st
    else
      match splitAtNewline st.buffer with
      | none => st
      | some (line, rest) =>
        let st1 := processLine parse { st with buffer := rest } line
        if st1.err.isSome then { st1 with buffer := [] }
        else if st1.finished then { st1 with buffer := [] }
        else flushLines parse f st1

/-- `flushLines` with always-sufficient fuel (each iteration strips a
line and its newline, at least one character, from the buffer). -/
def flushAll (parse : JStr → Option StreamPayload) (st : StreamState) : StreamState :=
  flushLines parse (st.buffer.length + 1) st

/-- `flushBuffer(force)`: drain complete lines, then, when forcing at end
of stream, feed the trailing partial line to `processLine` if it is not
blank. -/
def flushBufferM (parse : JStr → Option StreamPayload) (force : Bool)
    (st : StreamState) : StreamState :=
  let st1 := flushAll parse st
  if st1.err.isSome || st1.finished then st1
  else if force && !(trimL st1.buffer).isEmpty then
    processLine parse { st1 with buffer := [] } st1.buffer
  else st1

/-- The read loop of `streamOllamaChat`: append each chunk to the buffer
and flush, stopping when `done=true` was observed or an exception is
pending. -/
def runChunks (parse : JStr → Option StreamPayload) :
    StreamState → List JStr → StreamState
  | st, [] => st
  | st, c :: cs =>
    if st.finished || st.err.isSome then st
    else runChunks parse (flushBufferM parse false { st with buffer := st.buffer ++ c }) cs

/-- `streamOllamaChat`, given the chunked byte stream: returns the
accumulated full text together with the fragments delivered to
`onToken`, or the (wrapped) error the code would throw. -/
def streamOllamaChat (parse : JStr → Option StreamPayload) (chunks : List JStr) :
    Except JStr (JStr × List JStr) :=
  let st := runChunks parse initialStreamState chunks
  match st.err with
  | some e => .error ("Failed to stream from Ollama: ".data ++ e)
  | none =>
    let st2 := flushBufferM parse true st
    match st2.err with
    | some e => .error ("Failed to stream from Ollama: ".data ++ e)
    | none =>
      if st2.finished then .ok (st2.full, st2.toks)
      else .error ("Failed to stream from Ollama: Ollama stream ended without a completion signal.".data)

/-!
## Conversation orchestrator (`runConversation` of `src/council.ts`)

The loop is embedded as a per-iteration step function plus a fueled
loop; the `while (turns < maxTurns ...)` guard is the fuel, which starts
at `maxTurns` and decreases in lockstep with the `turns` counter (the
body increments `turns` exactly once per iteration).  The environment
carries the resolved panel's name lists and one oracle per external
effect: `agentResults i` is the `streamOllamaChat` outcome of the turn
taken when `turns = i`, `decisions i` the moderator decision obtained in
the iteration that set `turns = i`, `randPick i` the random draw of that
iteration (used modulo the alternative count, as
`Math.floor(Math.random() * length)`), and `judgeResult` the judge
call's outcome. -/

/-- `Message` of `src/types.ts`. -/
structure Message where
  speaker : JStr
  content : JStr
deriving DecidableEq, Repr

structure ConvEnv where
  debaterNames : List JStr
  judgeName : JStr
  maxTurns : Nat
  agentResults : Nat → Except JStr JStr
  decisions : Nat → ModeratorDecision
  randPick : Nat → Nat
  judgeResult : Except JStr JStr

/-- The orchestrator-local run state. -/
structure ConvSt where
  transcript : List Message
  turns : Nat
  debaterTurns : Nat
  currentSpeaker : JStr
  lastSpeaker : Option JStr
  shouldConclude : Bool
deriving DecidableEq, Repr

/-- `MAX_DEBATER_TURNS = 8`, the hard cap on debater turns. -/
def MAX_DEBATER_TURNS : Nat := 8

/-- `DEFAULT_MAX_TURNS = 12`. -/
def DEFAULT_MAX_TURNS : Nat := 12

/-- `knownSpeakers = new Set([...debaterNames, judgeName])`. -/
def knownSpeakers (P : ConvEnv) : List JStr :=
  P.debaterNames ++ [P.judgeName]

/-- `runSingleTurnForAgent`: stream the persona's response; on success
sanitize it unless it begins with `[ERROR]`, on failure record the raw
`[ERROR] <message>` text; either way the entry is appended. -/
def runSingleTurnForAgent (name : JStr) (result : Except JStr JStr) : Message :=
  match result with
  | .error msg => { speaker := name, content := "[ERROR] ".data ++ msg }
  | .ok txt =>
    { speaker := name,
      content := if "[ERROR]".data.isPrefixOf txt then txt else formatAgentOutput name txt }

/-- Outcome of one iteration of the turn loop: `halt` models the
`break`, `next` re-enters the loop. -/
inductive StepRes where
  | halt (st : ConvSt)
  | next (st : ConvSt)

/-- Lines 146–167 of the loop body: obtain the moderator decision for
the iteration that just set `turns`, apply the anti-repetition rule
against the speaker who just spoke (`last`), then validate the proposed
speaker against the known-speaker set.  Returns the next
`(currentSpeaker, shouldConclude)` pair. -/
def decideNext (P : ConvEnv) (last : JStr) (turns : Nat) : JStr × Bool :=
  let d := P.decisions turns
  let ns0 := d.nextSpeaker
  let sc0 := d.shouldConclude
  let ns1 :=
    if ¬sc0 ∧ ns0 ∈ P.debaterNames ∧ ns0 = last then
      let alternatives := P.debaterNames.filter (fun n => n ≠ last)
      if alternatives.isEmpty then ns0
      else alternatives.getD (P.randPick turns % alternatives.length) ns0
    else ns0
  if ns1 ∉ knownSpeakers P then (P.judgeName, true)
  else if ¬sc0 ∧ ns1 = P.judgeName then (ns1, true)
  else (ns1, sc0)

/-- One iteration of the `while` body of `runConversation`, entered with
the loop guard already established. -/
def convStep (P : ConvEnv) (st : ConvSt) : Except JStr StepRes :=
  if st.currentSpeaker = P.judgeName then
    .ok (.halt { st with shouldConclude := true })
  else if st.currentSpeaker ∉ knownSpeakers P then
    .error ("Unknown persona: ".data ++ st.currentSpeaker)
  else
    let entry := runSingleTurnForAgent st.currentSpeaker (P.agentResults st.turns)
    let transcript := st.transcript ++ [entry]
    let turns := st.turns + 1
    let isDeb := st.currentSpeaker ∈ P.debaterNames
    let dTurns := if isDeb then st.debaterTurns + 1 else st.debaterTurns
    let last := st.currentSpeaker
    if isDeb ∧ MAX_DEBATER_TURNS ≤ dTurns then
      .ok (.next { transcript := transcript, turns := turns, debaterTurns := dTurns,
                   currentSpeaker := P.judgeName, lastSpeaker := some last,
                   shouldConclude := st.shouldConclude })
    else
      let nsc := decideNext P last turns
      .ok (.next { transcript := transcript, turns := turns, debaterTurns := dTurns,
                   currentSpeaker := nsc.1, lastSpeaker := some last,
                   shouldConclude := nsc.2 })

/-- The turn loop.  Fuel exhaustion is the `turns < maxTurns` guard
going false; the `shouldConclude` test is the other half of the
guard. -/
def convLoop (P : ConvEnv) : Nat → ConvSt → Except JStr ConvSt
  | 0, st => .ok st
  | fuel + 1, st =>
    if st.shouldConclude then .ok st
    else
      match convStep P st with
      | .error e => .error e
      | .ok (.halt st') => .ok st'
      | .ok (.next st') => convLoop P fuel st'

/-- `runJudge`: a transport failure is rethrown; on success the streamed
text is cleaned, trimmed, appended as the final entry and returned as
the judgment. -/
def runJudge (judgeName : JStr) (result : Except JStr JStr) (transcript : List Message) :
    Except JStr (List Message × JStr) :=
  match result with
  | .error e => .error e
  | .ok raw =>
    let judgment := trimL (cleanSpeakerOutput raw)
    .ok (transcript ++ [{ speaker := judgeName, content := judgment }], judgment)

/-- The initial run state: transcript seeded with the user entry,
initial speaker the first debater or, failing that, the judge. -/
def initState (P : ConvEnv) (question : JStr) : ConvSt :=
  { transcript := [{ speaker := "User".data, content := question }],
    turns := 0, debaterTurns := 0,
    currentSpeaker := P.debaterNames.headD P.judgeName,
    lastSpeaker := none, shouldConclude := false }

/-- `runConversation`: validate the question, run the turn loop, then
the judge phase. -/
def runConversation (P : ConvEnv) (userQuestion : JStr) :
    Except JStr (List Message × JStr) :=
  let question := trimL userQuestion
  if question.isEmpty then .error "User question cannot be empty.".data
  else
    match convLoop P P.maxTurns (initState P question) with
    | .error e => .error e
    | .ok st => runJudge P.judgeName P.judgeResult st.transcript

/-!
## Concrete fixtures used by the witness theorems
-/

/-- A two-debater environment whose agent calls fail with a transport
error and whose moderator always hands off to the judge. -/
def envW : ConvEnv :=
  { debaterNames := ["A".data, "B".data], judgeName := "J".data, maxTurns := 12,
    agentResults := fun _ => .error "down".data,
    decisions := fun _ => { nextSpeaker := "J".data, shouldConclude := true, reason := none },
    randPick := fun _ => 0,
    judgeResult := .ok "verdict".data }

/-- A mid-run state one debater turn short of the hard cap. -/
def stCapW : ConvSt :=
  { transcript := [{ speaker := "User".data, content := "q".data }],
    turns := 0, debaterTurns := 7, currentSpeaker := "A".data,
    lastSpeaker := none, shouldConclude := false }

/-- The state in which `envW`'s turn loop ends. -/
def loopEndW : ConvSt :=
  { transcript := [{ speaker := "User".data, content := "q".data },
                   { speaker := "A".data, content := "[ERROR] down".data }],
    turns := 1, debaterTurns := 1, currentSpeaker := "J".data,
    lastSpeaker := some "A".data, shouldConclude := true }

/-- Like `envW`, but whose moderator always proposes the speaker who
just spoke without concluding. -/
def envRepW : ConvEnv :=
  { debaterNames := ["A".data, "B".data], judgeName := "J".data, maxTurns := 12,
    agentResults := fun _ => .error "down".data,
    decisions := fun _ => { nextSpeaker := "A".data, shouldConclude := false, reason := none },
    randPick := fun _ => 0,
    judgeResult := .ok "verdict".data }

/-- The run state right after the user entry, about to run debater `A`. -/
def stRepW : ConvSt :=
  { transcript := [{ speaker := "User".data, content := "q".data }],
    turns := 0, debaterTurns := 0, currentSpeaker := "A".data,
    lastSpeaker := none, shouldConclude := false }

/-- A concrete stream parser: three recognized lines, the last carrying
the completion signal. -/
def parseW : JStr → Option StreamPayload := fun l =>
  if l = "a".data then some { content := "Hel".data, done := false }
  else if l = "b".data then some { content := "lo".data, done := false }
  else if l = "d".data then some { content := "!".data, done := true }
  else none

/-!
## Theorems
-/

/-- Membership is invariant under order-preserving de-duplication. -/
theorem mem_dedupKeepFirst (a : JStr) (l : List JStr) :
    a ∈ dedupKeepFirst l ↔ a ∈ l := by
  have H : ∀ n (l : List JStr), l.length = n → (a ∈ dedupKeepFirst l ↔ a ∈ l) := by
    intro n
    induction n using Nat.strong_induction_on with
    | _ n ih =>
      intro l hl
      cases l with
      | nil => simp [dedupKeepFirst]
      | cons x xs =>
        rw [dedupKeepFirst]
        have hlen : (xs.filter (fun y => !(y == x))).length < n := by
          subst hl
          simp only [List.length_cons]
          exact Nat.lt_succ_of_le (List.length_filter_le _ _)
        constructor
        · intro h
          rcases List.mem_cons.mp h with h | h
          · exact h ▸ List.mem_cons_self _ _
          · have := (ih _ hlen _ rfl).mp h
            exact List.mem_cons_of_mem _ (List.mem_of_mem_filter this)
        · intro h
          rcases List.mem_cons.mp h with h | h
          · exact h ▸ List.mem_cons_self _ _
          · by_cases hax : a = x
            · exact hax ▸ List.mem_cons_self _ _
            · refine List.mem_cons_of_mem _ ((ih _ hlen _ rfl).mpr ?_)
              refine List.mem_filter.mpr ⟨h, ?_⟩
              simpa using hax
  exact H l.length l rfl

/-- A schema-valid moderator payload is an object carrying a string
`nextSpeaker` in the allowed set and a boolean `shouldConclude`. -/
theorem isValid_shape (v : JsValue) (allowed : List JStr)
    (h : isValidModeratorDecision v allowed = true) :
    ∃ fields s b, v = JsValue.obj fields ∧
      jsGet fields "nextSpeaker".data = some (JsValue.str s) ∧
      s ∈ allowed ∧
      jsGet fields "shouldConclude".data = some (JsValue.bool b) := by
  haveI : Nonempty JsValue := ⟨JsValue.null⟩
  haveI : Nonempty (List (JStr × JsValue)) := ⟨[]⟩
  cases v with
  | obj fields =>
    simp only [isValidModeratorDecision, Bool.and_eq_true] at h
    obtain ⟨⟨h1, h2⟩, _⟩ := h
    refine ⟨fields, ?_⟩
    cases hns : jsGet fields "nextSpeaker".data with
    | none => rw [hns] at h1; exact absurd h1 (by simp)
    | some nv =>
      rw [hns] at h1
      cases nv with
      | str s =>
        cases hsc : jsGet fields "shouldConclude".data with
        | none => rw [hsc] at h2; exact absurd h2 (by simp)
        | some sv =>
          rw [hsc] at h2
          cases sv with
          | bool b => exact ⟨s, b, rfl, rfl, by simpa using h1, rfl⟩
          | null => exact absurd h2 (by simp)
          | num n => exact absurd h2 (by simp)
          | str s2 => exact absurd h2 (by simp)
          | arr es => exact absurd h2 (by simp)
          | obj fs => exact absurd h2 (by simp)
      | null => exact absurd h1 (by simp)
      | bool b => exact absurd h1 (by simp)
      | num n => exact absurd h1 (by simp)
      | arr es => exact absurd h1 (by simp)
      | obj fs => exact absurd h1 (by simp)
  | null => exact absurd h (by simp [isValidModeratorDecision])
  | bool b => exact absurd h (by simp [isValidModeratorDecision])
  | num n => exact absurd h (by simp [isValidModeratorDecision])
  | str s => exact absurd h (by simp [isValidModeratorDecision])
  | arr es => exact absurd h (by simp [isValidModeratorDecision])

/-- C1.  For every panel with debaters, `getModeratorDecision` is a
total function (it never throws), and whenever the transport call
fails, the returned text fails to parse as JSON, or the parsed value
fails the schema/membership validation (string `nextSpeaker` in the
current debaters-plus-judge set, boolean `shouldConclude`, `reason`
absent or a string), it returns the fallback decision — next speaker
the judge, conclude — with a reason naming the cause (call failure
versus invalid input); moreover the returned next speaker always lies
in the debaters-plus-judge set. -/
theorem getModeratorDecision_fallback (panel : ActivePanel)
    (callResult : Except JStr JStr) (parseJSON : JStr → Option JsValue)
    (hne : panel.debaters ≠ []) :
    (∀ msg, callResult = .error msg →
      getModeratorDecision panel callResult parseJSON =
        { nextSpeaker := panel.judge.name, shouldConclude := true,
          reason := some ("Fallback: moderator call failed (".data ++ msg ++ ")".data) })
    ∧ (∀ raw, callResult = .ok raw → parseJSON raw = none →
      getModeratorDecision panel callResult parseJSON =
        { nextSpeaker := panel.judge.name, shouldConclude := true,
          reason := some "Fallback: invalid JSON from moderator".data })
    ∧ (∀ raw v, callResult = .ok raw → parseJSON raw = some v →
      isValidModeratorDecision v (moderatorAllowedSpeakers panel) = false →
      getModeratorDecision panel callResult parseJSON =
        { nextSpeaker := panel.judge.name, shouldConclude := true,
          reason := some "Fallback: invalid JSON from moderator".data })
    ∧ (getModeratorDecision panel callResult parseJSON).nextSpeaker ∈
        moderatorAllowedSpeakers panel := by
  haveI : Nonempty JsValue := ⟨JsValue.null⟩
  haveI : Nonempty (List (JStr × JsValue)) := ⟨[]⟩
  have hjudge : panel.judge.name ∈ moderatorAllowedSpeakers panel :=
    (mem_dedupKeepFirst _ _).mpr (by simp)
  have hempty : panel.debaters.isEmpty = false := by
    cases h : panel.debaters with
    | nil => exact absurd h hne
    | cons a l => rfl
  refine ⟨?_, ?_, ?_, ?_⟩
  · intro msg hmsg
    subst hmsg
    simp [getModeratorDecision, hempty]
  · intro raw hraw hparse
    subst hraw
    simp [getModeratorDecision, hempty, hparse, invalidFallback]
  · intro raw v hraw hparse hval
    subst hraw
    simp [getModeratorDecision, hempty, hparse, hval, invalidFallback]
  · cases callResult with
    | error msg =>
      simpa [getModeratorDecision, hempty] using hjudge
    | ok raw =>
      cases hparse : parseJSON raw with
      | none => simpa [getModeratorDecision, hempty, hparse, invalidFallback] using hjudge
      | some v =>
        by_cases hval : isValidModeratorDecision v (moderatorAllowedSpeakers panel) = true
        · obtain ⟨fields, s, b, hv, hns, hmem, hsc⟩ := isValid_shape v _ hval
          subst hv
          simpa [getModeratorDecision, hempty, hparse, hval, hns, hsc] using hmem
        · rw [Bool.not_eq_true] at hval
          simpa [getModeratorDecision, hempty, hparse, hval, invalidFallback] using hjudge

/-- Witness for C1: a one-debater panel with a failed moderator call. -/
theorem getModeratorDecision_fallback_witness :
    getModeratorDecision ⟨[⟨"A".data⟩], ⟨"J".data⟩⟩ (.error "boom".data) (fun _ => none) =
      { nextSpeaker := "J".data, shouldConclude := true,
        reason := some ("Fallback: moderator call failed (".data ++ "boom".data ++ ")".data) } :=
  (getModeratorDecision_fallback ⟨[⟨"A".data⟩], ⟨"J".data⟩⟩ (.error "boom".data)
    (fun _ => none) (by decide)).1 "boom".data rfl

/-- C9 counterexample.  The claim states the empty-panel reason equals
`"no debaters"`; on a concrete empty panel the code's reason is the
different string `"Fallback: panel has no debaters"`. -/
theorem getModeratorDecision_no_debaters_reason_counterexample :
    (getModeratorDecision ⟨[], ⟨"J".data⟩⟩ (.ok "x".data) (fun _ => none)).reason ≠
      some "no debaters".data := by
  decide

/-- C9 (amended).  For every panel with no debaters,
`getModeratorDecision` returns — independently of the transport and
parser, i.e. without calling them — the decision
`{nextSpeaker := judge, shouldConclude := true}` with reason
`"Fallback: panel has no debaters"` (which mentions, rather than
equals, "no debaters"). -/
theorem getModeratorDecision_no_debaters (panel : ActivePanel)
    (c₁ c₂ : Except JStr JStr) (p₁ p₂ : JStr → Option JsValue)
    (h : panel.debaters = []) :
    getModeratorDecision panel c₁ p₁ =
      { nextSpeaker := panel.judge.name, shouldConclude := true,
        reason := some "Fallback: panel has no debaters".data }
    ∧ getModeratorDecision panel c₁ p₁ = getModeratorDecision panel c₂ p₂ := by
  have hempty : panel.debaters.isEmpty = true := by rw [h]; rfl
  constructor
  · simp [getModeratorDecision, hempty]
  · simp [getModeratorDecision, hempty]

/-- Witness for the amended C9 on a concrete empty panel. -/
theorem getModeratorDecision_no_debaters_witness :
    getModeratorDecision ⟨[], ⟨"J".data⟩⟩ (.ok "x".data) (fun _ => none) =
      { nextSpeaker := "J".data, shouldConclude := true,
        reason := some "Fallback: panel has no debaters".data } :=
  (getModeratorDecision_no_debaters ⟨[], ⟨"J".data⟩⟩ (.ok "x".data) (.error "e".data)
    (fun _ => none) (fun _ => none) rfl).1

/-- The speaker of a turn entry is the persona that took the turn. -/
theorem runSingleTurnForAgent_speaker (name : JStr) (r : Except JStr JStr) :
    (runSingleTurnForAgent name r).speaker = name := by
  cases r <;> rfl

/-- The two `.next` outcomes of one loop iteration for a debater: the
cap branch (decision call skipped, judge forced) and the decision
branch. -/
theorem convStep_run (P : ConvEnv) (st : ConvSt)
    (h1 : st.currentSpeaker ≠ P.judgeName)
    (hdeb : st.currentSpeaker ∈ P.debaterNames) :
    (MAX_DEBATER_TURNS ≤ st.debaterTurns + 1 →
      convStep P st = .ok (.next
        { transcript := st.transcript ++
            [runSingleTurnForAgent st.currentSpeaker (P.agentResults st.turns)],
          turns := st.turns + 1, debaterTurns := st.debaterTurns + 1,
          currentSpeaker := P.judgeName, lastSpeaker := some st.currentSpeaker,
          shouldConclude := st.shouldConclude }))
    ∧ (st.debaterTurns + 1 < MAX_DEBATER_TURNS →
      convStep P st = .ok (.next
        { transcript := st.transcript ++
            [runSingleTurnForAgent st.currentSpeaker (P.agentResults st.turns)],
          turns := st.turns + 1, debaterTurns := st.debaterTurns + 1,
          currentSpeaker := (decideNext P st.currentSpeaker (st.turns + 1)).1,
          lastSpeaker := some st.currentSpeaker,
          shouldConclude := (decideNext P st.currentSpeaker (st.turns + 1)).2 })) := by
  have h2 : st.currentSpeaker ∈ knownSpeakers P := List.mem_append_left _ hdeb
  constructor
  · intro h3
    unfold convStep
    rw [if_neg h1, if_neg (not_not_intro h2)]
    simp only [if_pos hdeb]
    rw [if_pos (⟨hdeb, h3⟩ :
      st.currentSpeaker ∈ P.debaterNames ∧ MAX_DEBATER_TURNS ≤ st.debaterTurns + 1)]
  · intro h3
    unfold convStep
    rw [if_neg h1, if_neg (not_not_intro h2)]
    simp only [if_pos hdeb]
    rw [if_neg (fun hc => absurd hc.2 (Nat.not_le_of_lt h3))]

/-- A halted iteration happens exactly when the judge is the current
speaker, and only flips the concluded flag. -/
theorem convStep_halt_inv (P : ConvEnv) (st st'' : ConvSt)
    (h : convStep P st = .ok (.halt st'')) :
    st.currentSpeaker = P.judgeName ∧ st'' = { st with shouldConclude := true } := by
  by_cases h1 : st.currentSpeaker = P.judgeName
  · refine ⟨h1, ?_⟩
    rw [convStep, if_pos h1] at h
    simpa using h.symm
  · exfalso
    by_cases h2 : st.currentSpeaker ∈ knownSpeakers P
    · rw [convStep, if_neg h1, if_neg (not_not_intro h2)] at h
      have hdeb : st.currentSpeaker ∈ P.debaterNames := by
        rcases List.mem_append.mp h2 with hm | hm
        · exact hm
        · exact absurd (by simpa using hm) h1
      simp only [if_pos hdeb] at h
      split at h <;> simp at h
    · rw [convStep, if_neg h1, if_pos h2] at h
      simp at h

/-- What one continuing iteration guarantees: a debater spoke (never the
judge), exactly one entry was appended, both counters advanced, and at
the cap boundary the judge was forced. -/
theorem convStep_next_inv (P : ConvEnv) (st st' : ConvSt)
    (h : convStep P st = .ok (.next st')) :
    st.currentSpeaker ≠ P.judgeName
    ∧ st.currentSpeaker ∈ P.debaterNames
    ∧ st'.transcript = st.transcript ++
        [runSingleTurnForAgent st.currentSpeaker (P.agentResults st.turns)]
    ∧ st'.turns = st.turns + 1
    ∧ st'.debaterTurns = st.debaterTurns + 1
    ∧ (MAX_DEBATER_TURNS ≤ st.debaterTurns + 1 →
        st'.currentSpeaker = P.judgeName ∧ st'.shouldConclude = st.shouldConclude) := by
  by_cases h1 : st.currentSpeaker = P.judgeName
  · rw [convStep, if_pos h1] at h
    simp at h
  by_cases h2 : st.currentSpeaker ∈ knownSpeakers P
  · have hdeb : st.currentSpeaker ∈ P.debaterNames := by
      rcases List.mem_append.mp h2 with hm | hm
      · exact hm
      · exact absurd (by simpa using hm) h1
    refine ⟨h1, hdeb, ?_⟩
    by_cases h3 : MAX_DEBATER_TURNS ≤ st.debaterTurns + 1
    · have hstep := (convStep_run P st h1 hdeb).1 h3
      rw [hstep] at h
      simp only [Except.ok.injEq, StepRes.next.injEq] at h
      subst h
      simp [h3]
    · have hstep := (convStep_run P st h1 hdeb).2 (Nat.lt_of_not_le h3)
      rw [hstep] at h
      simp only [Except.ok.injEq, StepRes.next.injEq] at h
      subst h
      exact ⟨rfl, rfl, rfl, fun hc => absurd hc h3⟩
  · rw [convStep, if_neg h1, if_pos h2] at h
    simp at h

/-- The cap invariant is preserved by the whole loop. -/
theorem convLoop_cap (P : ConvEnv) : ∀ (fuel : Nat) (st st' : ConvSt),
    st.debaterTurns ≤ MAX_DEBATER_TURNS →
    (st.debaterTurns = MAX_DEBATER_TURNS →
      st.currentSpeaker = P.judgeName ∨ st.shouldConclude = true) →
    convLoop P fuel st = .ok st' →
    st'.debaterTurns ≤ MAX_DEBATER_TURNS := by
  intro fuel
  induction fuel with
  | zero =>
    intro st st' hle _ h
    simp only [convLoop, Except.ok.injEq] at h
    exact h ▸ hle
  | succ fuel ih =>
    intro st st' hle hinv h
    rw [convLoop] at h
    by_cases hsc : st.shouldConclude = true
    · rw [if_pos hsc] at h
      simp only [Except.ok.injEq] at h
      exact h ▸ hle
    · rw [if_neg hsc] at h
      cases hstep : convStep P st with
      | error e => rw [hstep] at h; simp at h
      | ok r =>
        rw [hstep] at h
        cases r with
        | halt st'' =>
          obtain ⟨-, rfl⟩ := convStep_halt_inv P st st'' hstep
          simp only [Except.ok.injEq] at h
          subst h
          exact hle
        | next st'' =>
          obtain ⟨hnj, hdeb, -, -, hdt, hcap⟩ := convStep_next_inv P st st'' hstep
          have hlt : st.debaterTurns < MAX_DEBATER_TURNS := by
            rcases Nat.lt_or_ge st.debaterTurns MAX_DEBATER_TURNS with hl | hg
            · exact hl
            · have heq : st.debaterTurns = MAX_DEBATER_TURNS := Nat.le_antisymm hle hg
              rcases hinv heq with hj | hs
              · exact absurd hj hnj
              · exact absurd hs hsc
          refine ih st'' st' (by omega) ?_ h
          intro heq
          rcases Nat.lt_or_ge (st.debaterTurns + 1) MAX_DEBATER_TURNS with hl | hg
          · omega
          · exact Or.inl (hcap hg).1

/-- The loop only appends entries, every one of them spoken by a
debater and never by the judge. -/
theorem convLoop_transcript (P : ConvEnv) : ∀ (fuel : Nat) (st st' : ConvSt),
    convLoop P fuel st = .ok st' →
    ∃ tail, st'.transcript = st.transcript ++ tail ∧
      ∀ m ∈ tail, m.speaker ≠ P.judgeName ∧ m.speaker ∈ P.debaterNames := by
  intro fuel
  induction fuel with
  | zero =>
    intro st st' h
    simp only [convLoop, Except.ok.injEq] at h
    exact ⟨[], by simp [h.symm], by simp⟩
  | succ fuel ih =>
    intro st st' h
    rw [convLoop] at h
    by_cases hsc : st.shouldConclude = true
    · rw [if_pos hsc] at h
      simp only [Except.ok.injEq] at h
      exact ⟨[], by simp [h.symm], by simp⟩
    · rw [if_neg hsc] at h
      cases hstep : convStep P st with
      | error e => rw [hstep] at h; simp at h
      | ok r =>
        rw [hstep] at h
        cases r with
        | halt st'' =>
          obtain ⟨-, rfl⟩ := convStep_halt_inv P st st'' hstep
          simp only [Except.ok.injEq] at h
          exact ⟨[], by simp [h.symm], by simp⟩
        | next st'' =>
          obtain ⟨hnj, hdeb, htr, -, -, -⟩ := convStep_next_inv P st st'' hstep
          obtain ⟨tail, htail, hall⟩ := ih st'' st' h
          refine ⟨runSingleTurnForAgent st.currentSpeaker (P.agentResults st.turns) :: tail, ?_, ?_⟩
          · rw [htail, htr, List.append_assoc]
            rfl
          · intro m hm
            rcases List.mem_cons.mp hm with hm | hm
            · subst hm
              rw [runSingleTurnForAgent_speaker]
              exact ⟨hnj, hdeb⟩
            · exact hall m hm

/-- C2.  In every run the debater-turn counter never exceeds the hard
cap `MAX_DEBATER_TURNS = 8`, for any sequence of moderator decisions;
and in an iteration where the counter reaches the cap after a debater
speaks, the next speaker is forced to the judge and the moderator
decision call is skipped (the step is invariant under replacing the
decision oracle). -/
theorem debater_turn_cap (P : ConvEnv) :
    (∀ fuel st st',
      st.debaterTurns ≤ MAX_DEBATER_TURNS →
      (st.debaterTurns = MAX_DEBATER_TURNS →
        st.currentSpeaker = P.judgeName ∨ st.shouldConclude = true) →
      convLoop P fuel st = .ok st' →
      st'.debaterTurns ≤ MAX_DEBATER_TURNS)
    ∧ (∀ q st', convLoop P P.maxTurns (initState P q) = .ok st' →
      st'.debaterTurns ≤ MAX_DEBATER_TURNS)
    ∧ (∀ st D, st.currentSpeaker ∈ P.debaterNames →
        st.currentSpeaker ≠ P.judgeName →
        MAX_DEBATER_TURNS ≤ st.debaterTurns + 1 →
        convStep P st = .ok (.next
          { transcript := st.transcript ++
              [runSingleTurnForAgent st.currentSpeaker (P.agentResults st.turns)],
            turns := st.turns + 1, debaterTurns := st.debaterTurns + 1,
            currentSpeaker := P.judgeName, lastSpeaker := some st.currentSpeaker,
            shouldConclude := st.shouldConclude })
        ∧ convStep { P with decisions := D } st = convStep P st) := by
  refine ⟨convLoop_cap P, ?_, ?_⟩
  · intro q st' h
    exact convLoop_cap P P.maxTurns _ st' (by simp [initState, MAX_DEBATER_TURNS])
      (by simp [initState, MAX_DEBATER_TURNS]) h
  · intro st D hdeb hnj hcap
    have h1 := (convStep_run P st hnj hdeb).1 hcap
    have h2 := (convStep_run { P with decisions := D } st hnj hdeb).1 hcap
    exact ⟨h1, by rw [h1, h2]⟩

/-- Witness for C2: the concrete environment's run ends within the cap,
and at the cap boundary the step ignores the decision oracle. -/
theorem debater_turn_cap_witness :
    loopEndW.debaterTurns ≤ MAX_DEBATER_TURNS
    ∧ convStep { envW with decisions := fun _ =>
        { nextSpeaker := "A".data, shouldConclude := false, reason := none } } stCapW =
      convStep envW stCapW := by
  constructor
  · exact (debater_turn_cap envW).2.1 "q".data loopEndW rfl
  · exact ((debater_turn_cap envW).2.2 stCapW
      (fun _ => { nextSpeaker := "A".data, shouldConclude := false, reason := none })
      (by decide) (by decide) (by decide)).2

theorem getD_mem {α : Type} (l : List α) (i : Nat) (d : α) (h : i < l.length) :
    l.getD i d ∈ l := by
  rw [List.getD_eq_getElem?_getD, List.getElem?_eq_getElem h]
  exact List.getElem_mem h

theorem runConversation_ok_inv (P : ConvEnv) (q : JStr) (t : List Message) (j : JStr)
    (h : runConversation P q = .ok (t, j)) :
    ∃ tail, t = ({ speaker := "User".data, content := trimL q } :: tail) ++
        [{ speaker := P.judgeName, content := j }]
      ∧ ∀ m ∈ tail, m.speaker ≠ P.judgeName ∧ m.speaker ∈ P.debaterNames := by
  rw [runConversation] at h
  by_cases hq : (trimL q).isEmpty = true
  · rw [if_pos hq] at h
    simp at h
  · rw [if_neg hq] at h
    cases hrun : convLoop P P.maxTurns (initState P (trimL q)) with
    | error e => rw [hrun] at h; simp at h
    | ok st =>
      rw [hrun] at h
      replace h : runJudge P.judgeName P.judgeResult st.transcript = .ok (t, j) := h
      cases hjr : P.judgeResult with
      | error e => rw [runJudge.eq_def, hjr] at h; simp at h
      | ok raw =>
        rw [runJudge.eq_def, hjr] at h
        simp only [Except.ok.injEq, Prod.mk.injEq] at h
        obtain ⟨ht, hj⟩ := h
        obtain ⟨tail, htail, hall⟩ := convLoop_transcript P _ _ _ hrun
        refine ⟨tail, ?_, hall⟩
        rw [← ht, htail, ← hj]
        rfl

/-- C3.  For any panel with at least one debater, a successfully
completed run's transcript starts with `{speaker := "User", content :=
trimmed question}`, ends with the judge's entry carrying the judgment,
is never empty (and stays non-empty at every point of the turn loop),
and contains the judge's entry exactly once — appended after the turn
loop (assuming the judge does not share the reserved name `"User"`). -/
theorem transcript_shape (P : ConvEnv) (q : JStr) (t : List Message) (j : JStr)
    (hd : P.debaterNames ≠ [])
    (hju : P.judgeName ≠ "User".data)
    (h : runConversation P q = .ok (t, j)) :
    t.head? = some { speaker := "User".data, content := trimL q }
    ∧ t ≠ []
    ∧ t.getLast? = some { speaker := P.judgeName, content := j }
    ∧ (t.filter (fun m => m.speaker == P.judgeName)).length = 1
    ∧ (∀ fuel st st', st.transcript ≠ [] → convLoop P fuel st = .ok st' →
        st'.transcript ≠ []) := by
  obtain ⟨tail, hteq, hall⟩ := runConversation_ok_inv P q t j h
  subst hteq
  refine ⟨rfl, by simp, ?_, ?_, ?_⟩
  · exact List.getLast?_concat _
  · have htail0 : tail.filter (fun m => m.speaker == P.judgeName) = [] := by
      rw [List.filter_eq_nil_iff]
      intro m hm
      simpa using (hall m hm).1
    have hju' : ¬ ("User".data = P.judgeName) := fun he => hju he.symm
    simp [List.filter_append, List.filter_cons, htail0, hju']
  · intro fuel st st' hne hrun
    obtain ⟨tl, htl, -⟩ := convLoop_transcript P fuel st st' hrun
    rw [htl]
    intro hc
    exact hne (List.append_eq_nil.mp hc).1

/-- C4.  Whenever the moderator decision proposes as next speaker the
same debater who just spoke, with `shouldConclude = false`, and the
panel has at least two (distinct-named) debaters, the selected next
speaker differs from the immediately-preceding speaker. -/
theorem anti_repetition (P : ConvEnv) (st : ConvSt)
    (hdeb : st.currentSpeaker ∈ P.debaterNames)
    (hnj : st.currentSpeaker ≠ P.judgeName)
    (hprop : (P.decisions (st.turns + 1)).nextSpeaker = st.currentSpeaker)
    (hsc : (P.decisions (st.turns + 1)).shouldConclude = false)
    (hnodup : P.debaterNames.Nodup)
    (hlen : 2 ≤ P.debaterNames.length) :
    ∃ st', convStep P st = .ok (.next st') ∧ st'.currentSpeaker ≠ st.currentSpeaker := by
  by_cases h3 : MAX_DEBATER_TURNS ≤ st.debaterTurns + 1
  · exact ⟨_, (convStep_run P st hnj hdeb).1 h3, Ne.symm hnj⟩
  · refine ⟨_, (convStep_run P st hnj hdeb).2 (Nat.lt_of_not_le h3), ?_⟩
    obtain ⟨y, hy, hyx⟩ : ∃ y ∈ P.debaterNames, y ≠ st.currentSpeaker := by
      match hl : P.debaterNames, hnodup, hlen with
      | a :: b :: rest, hnd, _ =>
        have hab : a ≠ b := by
          have := (List.nodup_cons.mp hnd).1
          exact fun he => this (he ▸ List.mem_cons_self b rest)
        by_cases ha : a = st.currentSpeaker
        · exact ⟨b, by simp, fun he => hab (by rw [ha, he])⟩
        · exact ⟨a, by simp, ha⟩
    have hyfilter : y ∈ P.debaterNames.filter (fun n => n ≠ st.currentSpeaker) :=
      List.mem_filter.mpr ⟨hy, by simpa using hyx⟩
    have hfne : (P.debaterNames.filter (fun n => n ≠ st.currentSpeaker)).isEmpty = false := by
      rw [List.isEmpty_eq_false_iff_exists_mem]
      exact ⟨y, hyfilter⟩
    show (decideNext P st.currentSpeaker (st.turns + 1)).1 ≠ st.currentSpeaker
    have hlpos : 0 < (P.debaterNames.filter (fun n => n ≠ st.currentSpeaker)).length :=
      List.length_pos.mpr (fun he => by rw [he] at hyfilter; exact absurd hyfilter (List.not_mem_nil y))
    have hpicked : (P.debaterNames.filter (fun n => n ≠ st.currentSpeaker)).getD
        (P.randPick (st.turns + 1) %
          (P.debaterNames.filter (fun n => n ≠ st.currentSpeaker)).length)
        st.currentSpeaker ≠ st.currentSpeaker := by
      have hmem := getD_mem _ (P.randPick (st.turns + 1) %
        (P.debaterNames.filter (fun n => n ≠ st.currentSpeaker)).length)
        st.currentSpeaker (Nat.mod_lt _ hlpos)
      simpa using (List.mem_filter.mp hmem).2
    unfold decideNext
    simp only [hprop, hsc, hfne]
    simp only [Bool.false_eq_true, not_false_iff, true_and, and_true, if_false, hdeb, if_true]
    by_cases hk : (P.debaterNames.filter (fun n => n ≠ st.currentSpeaker)).getD
        (P.randPick (st.turns + 1) %
          (P.debaterNames.filter (fun n => n ≠ st.currentSpeaker)).length)
        st.currentSpeaker ∈ knownSpeakers P
    · rw [if_neg (not_not_intro hk)]
      by_cases hpj : (P.debaterNames.filter (fun n => n ≠ st.currentSpeaker)).getD
          (P.randPick (st.turns + 1) %
            (P.debaterNames.filter (fun n => n ≠ st.currentSpeaker)).length)
          st.currentSpeaker = P.judgeName
      · rw [if_pos hpj]
        exact hpicked
      · rw [if_neg hpj]
        exact hpicked
    · rw [if_pos hk]
      exact Ne.symm hnj

/-- C7.  When a debater's transport call fails, the iteration still
continues (`.next`, no propagated error), the transcript gains exactly
the entry `{speaker := persona name, content := "[ERROR] " ++ message}`
— the raw error text, not a sanitized response — and both the
total-turn and debater-turn counters are incremented. -/
theorem turn_error_recovered (P : ConvEnv) (st : ConvSt) (msg : JStr)
    (hdeb : st.currentSpeaker ∈ P.debaterNames)
    (hnj : st.currentSpeaker ≠ P.judgeName)
    (herr : P.agentResults st.turns = .error msg) :
    ∃ st', convStep P st = .ok (.next st')
      ∧ st'.transcript = st.transcript ++
          [{ speaker := st.currentSpeaker, content := "[ERROR] ".data ++ msg }]
      ∧ st'.turns = st.turns + 1
      ∧ st'.debaterTurns = st.debaterTurns + 1 := by
  by_cases h3 : MAX_DEBATER_TURNS ≤ st.debaterTurns + 1
  · exact ⟨_, (convStep_run P st hnj hdeb).1 h3,
      by simp [runSingleTurnForAgent, herr], rfl, rfl⟩
  · exact ⟨_, (convStep_run P st hnj hdeb).2 (Nat.lt_of_not_le h3),
      by simp [runSingleTurnForAgent, herr], rfl, rfl⟩

/-- C8.  When the judge's transport call fails, `runJudge` propagates
the error unchanged without appending any entry, and `runConversation`
returns that error to its caller: the run fails without a judgment. -/
theorem judge_error_propagates (P : ConvEnv) (q e : JStr) :
    (∀ t, runJudge P.judgeName (.error e) t = .error e)
    ∧ (∀ st, trimL q ≠ [] →
        convLoop P P.maxTurns (initState P (trimL q)) = .ok st →
        P.judgeResult = .error e →
        runConversation P q = .error e) := by
  constructor
  · intro t
    rfl
  · intro st hne hrun hjr
    rw [runConversation, if_neg (by simp [List.isEmpty_iff, hne]), hrun]
    show runJudge P.judgeName P.judgeResult st.transcript = .error e
    rw [hjr]
    rfl

/-- C10.  For every input whose trimmed form is empty,
`runConversation` fails with `"User question cannot be empty."` for
every oracle environment (hence before any transcript entry or
transport call could matter); for non-empty trimmed input, a successful
run's first transcript entry carries the trimmed question, not the raw
input. -/
theorem empty_question_rejected (q : JStr) :
    (trimL q = [] → ∀ P, runConversation P q = .error "User question cannot be empty.".data)
    ∧ (∀ P t j, runConversation P q = .ok (t, j) →
        t.head? = some { speaker := "User".data, content := trimL q }) := by
  constructor
  · intro hq P
    rw [runConversation, if_pos (by simp [List.isEmpty_iff, hq])]
  · intro P t j h
    obtain ⟨tail, hteq, -⟩ := runConversation_ok_inv P q t j h
    subst hteq
    rfl

/-- Witness for C3 on the concrete environment's completed run. -/
theorem transcript_shape_witness :
    ([{ speaker := "User".data, content := "q".data },
      { speaker := "A".data, content := "[ERROR] down".data },
      { speaker := "J".data, content := "verdict".data }] : List Message).getLast? =
      some { speaker := "J".data, content := "verdict".data } :=
  (transcript_shape envW "q".data
    [{ speaker := "User".data, content := "q".data },
     { speaker := "A".data, content := "[ERROR] down".data },
     { speaker := "J".data, content := "verdict".data }] "verdict".data
    (by decide) (by decide) rfl).2.2.1

/-- Witness for C4: the repeat-proposing moderator never reselects the
debater who just spoke. -/
theorem anti_repetition_witness :
    ∃ st', convStep envRepW stRepW = .ok (.next st')
      ∧ st'.currentSpeaker ≠ "A".data :=
  anti_repetition envRepW stRepW (by decide) (by decide) (by decide) (by decide)
    (by decide) (by decide)

/-- Witness for C7: the failed debater call is recorded verbatim and the
counters still advance. -/
theorem turn_error_recovered_witness :
    ∃ st', convStep envW stRepW = .ok (.next st')
      ∧ st'.transcript = stRepW.transcript ++
          [{ speaker := "A".data, content := "[ERROR] down".data }]
      ∧ st'.turns = 1 ∧ st'.debaterTurns = 1 :=
  turn_error_recovered envW stRepW "down".data (by decide) (by decide) rfl

/-- Witness for C8 on the concrete environment with a failing judge
call. -/
theorem judge_error_propagates_witness :
    runConversation { envW with judgeResult := .error "jfail".data } "q".data =
      .error "jfail".data :=
  (judge_error_propagates { envW with judgeResult := .error "jfail".data } "q".data
    "jfail".data).2 loopEndW (by decide) rfl rfl

/-- Witness for C10: a whitespace-only question is rejected, and the
concrete run's transcript starts with the trimmed question. -/
theorem empty_question_rejected_witness :
    runConversation envW "  ".data = .error "User question cannot be empty.".data
    ∧ ([{ speaker := "User".data, content := "q".data },
        { speaker := "A".data, content := "[ERROR] down".data },
        { speaker := "J".data, content := "verdict".data }] : List Message).head? =
        some { speaker := "User".data, content := "q".data } := by
  constructor
  · exact (empty_question_rejected "  ".data).1 (by decide) envW
  · exact (empty_question_rejected "q".data).2 envW
      [{ speaker := "User".data, content := "q".data },
       { speaker := "A".data, content := "[ERROR] down".data },
       { speaker := "J".data, content := "verdict".data }] "verdict".data rfl

/-- C6 counterexample.  Sanitizing `"[a][b][c]x"` strips two leading
bracketed tags (one in `cleanSpeakerOutput`, one in
`stripSpeakerArtifacts`), leaving `"[c]x"`; a second application strips
again, so the pipeline is not idempotent. -/
theorem formatAgentOutput_not_idempotent :
    formatAgentOutput "Analyst".data (formatAgentOutput "Analyst".data "[a][b][c]x".data) ≠
      formatAgentOutput "Analyst".data "[a][b][c]x".data := by
  decide

/-- C6 (amended).  The pipeline is idempotent exactly on outputs that
each stage already leaves unchanged: if the once-sanitized text is a
fixed point of `cleanSpeakerOutput`, `stripSpeakerArtifacts`,
`normalizeSelfReference`, `stripClichedLeadIn` and leading-whitespace
trimming, a second application returns it unchanged; in general a
second application can strip further (see the counterexample). -/
theorem formatAgentOutput_idempotent_on_fixed_points (name t : JStr)
    (h1 : cleanSpeakerOutput (formatAgentOutput name t) = formatAgentOutput name t)
    (h2 : stripSpeakerArtifacts (formatAgentOutput name t) = formatAgentOutput name t)
    (h3 : normalizeSelfReference name (formatAgentOutput name t) = formatAgentOutput name t)
    (h4 : stripClichedLeadIn (formatAgentOutput name t) = formatAgentOutput name t)
    (h5 : trimStartL (formatAgentOutput name t) = formatAgentOutput name t) :
    formatAgentOutput name (formatAgentOutput name t) = formatAgentOutput name t := by
  set u := formatAgentOutput name t with hu
  show formatAgentOutput name u = u
  simp only [formatAgentOutput, h1, h2, h3, h4, h5]
  by_cases hnil : u = []
  · rw [if_pos (by simp [hnil])]
    simp [hnil, trimL]
  · rw [if_neg (by simp [List.isEmpty_iff, hnil])]

/-- Witness for the amended C6: `"Hello."` under persona `"Analyst"` is
a fixed point of every stage. -/
theorem formatAgentOutput_idempotent_witness :
    formatAgentOutput "Analyst".data (formatAgentOutput "Analyst".data "Hello.".data) =
      formatAgentOutput "Analyst".data "Hello.".data :=
  formatAgentOutput_idempotent_on_fixed_points "Analyst".data "Hello.".data
    (by decide) (by decide) (by decide) (by decide) (by decide)

theorem splitAtNewline_length : ∀ (s l r : JStr), splitAtNewline s = some (l, r) →
    r.length < s.length := by
  intro s
  induction s with
  | nil => intro l r h; simp [splitAtNewline] at h
  | cons c rest ih =>
    intro l r h
    rw [splitAtNewline] at h
    by_cases hc : c = '\n'
    · rw [if_pos hc] at h
      simp only [Option.some.injEq, Prod.mk.injEq] at h
      rw [← h.2]
      simp
    · rw [if_neg hc] at h
      cases hs : splitAtNewline rest with
      | none => rw [hs] at h; simp at h
      | some p =>
        rw [hs] at h
        cases p with
        | mk l' r' =>
          simp only [Option.some.injEq, Prod.mk.injEq] at h
          have := ih l' r' hs
          rw [← h.2]
          simp only [List.length_cons]
          omega

theorem splitAtNewline_append_some : ∀ (s b l r : JStr),
    splitAtNewline s = some (l, r) →
    splitAtNewline (s ++ b) = some (l, r ++ b) := by
  intro s
  induction s with
  | nil => intro b l r h; simp [splitAtNewline] at h
  | cons c rest ih =>
    intro b l r h
    rw [splitAtNewline] at h
    rw [List.cons_append, splitAtNewline]
    by_cases hc : c = '\n'
    · rw [if_pos hc] at h ⊢
      simp only [Option.some.injEq, Prod.mk.injEq] at h
      rw [← h.1, ← h.2]
    · rw [if_neg hc] at h ⊢
      cases hs : splitAtNewline rest with
      | none => rw [hs] at h; simp at h
      | some p =>
        cases p with
        | mk l' r' =>
          rw [hs] at h
          simp only [Option.some.injEq, Prod.mk.injEq] at h
          rw [ih b l' r' hs]
          simp only [Option.some.injEq, Prod.mk.injEq]
          exact ⟨by rw [← h.1], by rw [← h.2]⟩

theorem processLine_err_buffer (parse : JStr → Option StreamPayload)
    (st : StreamState) (line : JStr) (h0 : st.err = none)
    (h : (processLine parse st line).err.isSome = true) :
    (processLine parse st line).buffer = [] := by
  unfold processLine at h ⊢
  by_cases he : (trimL line).isEmpty = true
  · rw [if_pos he] at h
    rw [h0] at h
    simp at h
  · rw [if_neg he] at h ⊢
    cases hp : parse (trimL line) with
    | none => rfl
    | some payload =>
      rw [hp] at h
      exfalso
      by_cases hct : payload.content.isEmpty = true <;>
        by_cases hd : payload.done = true <;>
        simp [hct, hd, h0] at h

theorem processLine_ok_buffer (parse : JStr → Option StreamPayload)
    (st : StreamState) (line : JStr)
    (h : (processLine parse st line).err = none) :
    (processLine parse st line).buffer = st.buffer := by
  unfold processLine at h ⊢
  by_cases he : (trimL line).isEmpty = true
  · rw [if_pos he]
  · rw [if_neg he] at h ⊢
    cases hp : parse (trimL line) with
    | none => rw [hp] at h; simp at h
    | some payload =>
      by_cases hct : payload.content.isEmpty = true <;>
        by_cases hd : payload.done = true <;>
        simp [hct, hd]

theorem processLine_congr (parse : JStr → Option StreamPayload)
    (st : StreamState) (b line : JStr) (h0 : st.err = none) :
    processLine parse { st with buffer := b } line =
      (if (processLine parse st line).err.isSome then processLine parse st line
       else { processLine parse st line with buffer := b }) := by
  unfold processLine
  by_cases he : (trimL line).isEmpty = true
  · rw [if_pos he, if_pos he]
    rw [if_neg (by simp [h0])]
  · rw [if_neg he, if_neg he]
    cases hp : parse (trimL line) with
    | none => simp
    | some payload =>
      by_cases hct : payload.content.isEmpty = true <;>
        by_cases hd : payload.done = true <;>
        simp [hct, hd, h0]

theorem flushLines_fuel (parse : JStr → Option StreamPayload) :
    ∀ (f : Nat) (st : StreamState), st.buffer.length < f →
    flushLines parse f st = flushAll parse st := by
  intro f
  induction f using Nat.strong_induction_on with
  | _ f ih =>
    intro st hf
    cases f with
    | zero => omega
    | succ f =>
      rw [flushAll, flushLines, flushLines]
      by_cases herr : st.err.isSome = true
      · rw [if_pos herr, if_pos herr]
      · rw [if_neg herr, if_neg herr]
        cases hs : splitAtNewline st.buffer with
        | none => rfl
        | some p =>
          cases p with
          | mk line rest =>
            dsimp only
            set st1 := processLine parse { st with buffer := rest } line with hst1
            by_cases h1e : st1.err.isSome = true
            · rw [if_pos h1e, if_pos h1e]
            · rw [if_neg h1e, if_neg h1e]
              by_cases h1f : st1.finished = true
              · rw [if_pos h1f, if_pos h1f]
              · rw [if_neg h1f, if_neg h1f]
                have hbuf : st1.buffer = rest := by
                  rw [hst1]
                  exact processLine_ok_buffer parse _ line
                    (Option.not_isSome_iff_eq_none.mp h1e)
                have hlen := splitAtNewline_length _ _ _ hs
                rw [ih f (by omega) st1 (by rw [hbuf]; omega),
                    ih st.buffer.length (by omega) st1 (by rw [hbuf]; omega)]

theorem flushAll_no_newline (parse : JStr → Option StreamPayload) (st : StreamState)
    (h : splitAtNewline st.buffer = none) :
    flushAll parse st = st := by
  rw [flushAll, flushLines]
  by_cases herr : st.err.isSome = true
  · rw [if_pos herr]
  · rw [if_neg herr, h]

theorem flushAll_line_free (parse : JStr → Option StreamPayload) :
    ∀ (st : StreamState), st.err = none →
    (flushAll parse st).err = none → (flushAll parse st).finished = false →
    splitAtNewline (flushAll parse st).buffer = none := by
  intro st h0 he hf
  refine ?_
  have H : ∀ n (st : StreamState), st.buffer.length = n → st.err = none →
      (flushAll parse st).err = none → (flushAll parse st).finished = false →
      splitAtNewline (flushAll parse st).buffer = none := by
    intro n
    induction n using Nat.strong_induction_on with
    | _ n ih =>
      intro st hn h0 he hf
      rw [flushAll, flushLines] at he hf ⊢
      rw [if_neg (by simp [h0])] at he hf ⊢
      cases hs : splitAtNewline st.buffer with
      | none =>
        rw [hs] at he hf
        dsimp only at he hf ⊢
        exact hs
      | some p =>
        cases p with
        | mk line rest =>
          rw [hs] at he hf
          dsimp only at he hf ⊢
          set st1 := processLine parse { st with buffer := rest } line with hst1
          by_cases h1e : st1.err.isSome = true
          · rw [if_pos h1e] at he
            have h1n : st1.err = none := he
            rw [h1n] at h1e
            simp at h1e
          · rw [if_neg h1e] at he hf ⊢
            by_cases h1f : st1.finished = true
            · rw [if_pos h1f] at he hf ⊢
              rfl
            · rw [if_neg h1f] at he hf ⊢
              have hbuf : st1.buffer = rest := by
                rw [hst1]
                exact processLine_ok_buffer parse _ line
                  (Option.not_isSome_iff_eq_none.mp h1e)
              have hlen := splitAtNewline_length _ _ _ hs
              have hfl : flushLines parse st.buffer.length st1 = flushAll parse st1 :=
                flushLines_fuel parse st.buffer.length st1 (by rw [hbuf]; omega)
              rw [hfl] at he hf ⊢
              exact ih st1.buffer.length (by rw [hbuf]; omega) st1 rfl
                (Option.not_isSome_iff_eq_none.mp h1e) he hf
  exact H st.buffer.length st rfl h0 he hf

theorem flushAll_step (parse : JStr → Option StreamPayload) (X : StreamState)
    (line rest : JStr) (h0 : X.err = none)
    (hs : splitAtNewline X.buffer = some (line, rest)) :
    flushAll parse X =
      (if (processLine parse { X with buffer := rest } line).err.isSome then
        { processLine parse { X with buffer := rest } line with buffer := [] }
      else if (processLine parse { X with buffer := rest } line).finished then
        { processLine parse { X with buffer := rest } line with buffer := [] }
      else flushAll parse (processLine parse { X with buffer := rest } line)) := by
  rw [flushAll, flushLines]
  rw [if_neg (show ¬ (X.err.isSome = true) from by simp [h0]), hs]
  dsimp only
  by_cases h1e : (processLine parse { X with buffer := rest } line).err.isSome = true
  · rw [if_pos h1e, if_pos h1e]
  · rw [if_neg h1e, if_neg h1e]
    by_cases h1f : (processLine parse { X with buffer := rest } line).finished = true
    · rw [if_pos h1f, if_pos h1f]
    · rw [if_neg h1f, if_neg h1f]
      apply flushLines_fuel
      rw [processLine_ok_buffer parse _ line (Option.not_isSome_iff_eq_none.mp h1e)]
      exact splitAtNewline_length _ _ _ hs

theorem flushAll_append (parse : JStr → Option StreamPayload) :
    ∀ (st : StreamState) (b : JStr), st.err = none → st.finished = false →
    flushAll parse { st with buffer := st.buffer ++ b } =
      (if (flushAll parse st).err.isSome || (flushAll parse st).finished then
        flushAll parse st
      else flushAll parse
        { flushAll parse st with buffer := (flushAll parse st).buffer ++ b }) := by
  have H : ∀ n (st : StreamState) (b : JStr), st.buffer.length = n →
      st.err = none → st.finished = false →
      flushAll parse { st with buffer := st.buffer ++ b } =
        (if (flushAll parse st).err.isSome || (flushAll parse st).finished then
          flushAll parse st
        else flushAll parse
          { flushAll parse st with buffer := (flushAll parse st).buffer ++ b }) := by
    intro n
    induction n using Nat.strong_induction_on with
    | _ n ih =>
      intro st b hn h0 hfin
      cases hs : splitAtNewline st.buffer with
      | none =>
        rw [flushAll_no_newline parse st hs]
        rw [if_neg (by simp [h0, hfin])]
      | some p =>
        cases p with
        | mk line rest =>
          have hsb : splitAtNewline (st.buffer ++ b) = some (line, rest ++ b) :=
            splitAtNewline_append_some _ _ _ _ hs
          set st1 := processLine parse { st with buffer := rest } line with hst1
          have hcollapse :
              processLine parse { st with buffer := rest ++ b } line =
                (if st1.err.isSome then st1
                 else { st1 with buffer := rest ++ b }) := by
            rw [hst1]
            have hcg := processLine_congr parse { st with buffer := rest } (rest ++ b) line h0
            simpa using hcg
          have hstepL := flushAll_step parse { st with buffer := st.buffer ++ b }
            line (rest ++ b) (by simpa using h0) (by simpa using hsb)
          have hstepR := flushAll_step parse st line rest h0 hs
          dsimp only at hstepL
          rw [hcollapse] at hstepL
          rw [← hst1] at hstepR
          by_cases h1e : st1.err.isSome = true
          · rw [if_pos h1e] at hstepL
            rw [if_pos h1e] at hstepR
            rw [hstepL, hstepR]
            simp [h1e]
          · rw [if_neg h1e] at hstepL
            dsimp only at hstepL
            rw [if_neg h1e] at hstepL
            rw [if_neg h1e] at hstepR
            by_cases h1f : st1.finished = true
            · rw [if_pos h1f] at hstepL
              rw [if_pos h1f] at hstepR
              rw [hstepL, hstepR]
              simp [h1f]
            · rw [if_neg h1f] at hstepL
              rw [if_neg h1f] at hstepR
              have hbuf : st1.buffer = rest := by
                rw [hst1]
                exact processLine_ok_buffer parse _ line
                  (Option.not_isSome_iff_eq_none.mp h1e)
              rw [hstepL, hstepR]
              have hrw : ({ st1 with buffer := rest ++ b } : StreamState) =
                  { st1 with buffer := st1.buffer ++ b } := by rw [hbuf]
              rw [hrw]
              have hlen := splitAtNewline_length _ _ _ hs
              exact ih st1.buffer.length (by rw [hbuf]; omega) st1 b rfl
                (Option.not_isSome_iff_eq_none.mp h1e) (by simpa using h1f)
  intro st b h0 hfin
  exact H st.buffer.length st b rfl h0 hfin

theorem flushBufferM_false (parse : JStr → Option StreamPayload) (st : StreamState) :
    flushBufferM parse false st = flushAll parse st := by
  unfold flushBufferM
  dsimp only
  split
  · rfl
  · rw [if_neg (by simp)]

theorem runChunks_stuck (parse : JStr → Option StreamPayload) (st : StreamState)
    (l : List JStr) (h : (st.finished || st.err.isSome) = true) :
    runChunks parse st l = st := by
  cases l with
  | nil => rfl
  | cons c cs => rw [runChunks, if_pos h]

theorem runChunks_merge (parse : JStr → Option StreamPayload) (st : StreamState)
    (a b : JStr) (cs : List JStr) (h0 : st.err = none) :
    runChunks parse st (a :: b :: cs) = runChunks parse st ((a ++ b) :: cs) := by
  by_cases hstuck : (st.finished || st.err.isSome) = true
  · rw [runChunks_stuck parse st _ hstuck, runChunks_stuck parse st _ hstuck]
  · have hfin : st.finished = false := by
      simp only [Bool.or_eq_true, not_or, Bool.not_eq_true] at hstuck
      exact hstuck.1
    rw [runChunks, if_neg hstuck]
    conv_rhs => rw [runChunks, if_neg hstuck]
    rw [flushBufferM_false, flushBufferM_false]
    have hM := flushAll_append parse { st with buffer := st.buffer ++ a } b h0 hfin
    dsimp only at hM
    rw [show st.buffer ++ (a ++ b) = (st.buffer ++ a) ++ b from (List.append_assoc _ _ _).symm]
    rw [hM]
    by_cases hA : ((flushAll parse { st with buffer := st.buffer ++ a }).finished ||
        (flushAll parse { st with buffer := st.buffer ++ a }).err.isSome) = true
    · rw [runChunks_stuck parse _ _ hA]
      rw [if_pos (by rw [Bool.or_comm]; exact hA)]
      rw [runChunks_stuck parse _ _ hA]
    · rw [if_neg (by rw [Bool.or_comm]; exact hA)]
      rw [runChunks, if_neg hA, flushBufferM_false]

theorem runChunks_join (parse : JStr → Option StreamPayload) :
    ∀ (cs : List JStr) (st : StreamState), st.err = none →
    splitAtNewline st.buffer = none →
    runChunks parse st cs = runChunks parse st [cs.flatten] := by
  have H : ∀ n (cs : List JStr) (st : StreamState), cs.length = n → st.err = none →
      splitAtNewline st.buffer = none →
      runChunks parse st cs = runChunks parse st [cs.flatten] := by
    intro n
    induction n using Nat.strong_induction_on with
    | _ n ih =>
      intro cs st hn h0 hnl
      cases cs with
      | nil =>
        have hR : runChunks parse st [List.flatten []] = st := by
          rw [show List.flatten ([] : List JStr) = [] from rfl]
          rw [runChunks]
          by_cases hstuck : (st.finished || st.err.isSome) = true
          · rw [if_pos hstuck]
          · rw [if_neg hstuck, flushBufferM_false]
            rw [show ({ st with buffer := st.buffer ++ ([] : JStr) } : StreamState) = st by simp]
            rw [flushAll_no_newline parse st hnl]
            rfl
        rw [hR]
        rfl
      | cons a cs' =>
        cases cs' with
        | nil => rw [show List.flatten [a] = a by simp]
        | cons b cs'' =>
          rw [runChunks_merge parse st a b cs'' h0]
          rw [ih (((a ++ b) :: cs'').length) (by subst hn; simp) ((a ++ b) :: cs'') st
            rfl h0 hnl]
          have hfl : List.flatten ((a ++ b) :: cs'') = List.flatten (a :: b :: cs'') := by
            simp
          rw [hfl]
  intro cs st h0 hnl
  exact H cs.length cs st rfl h0 hnl

theorem processLine_tokens (parse : JStr → Option StreamPayload) (st : StreamState)
    (line : JStr) (h : st.full = st.toks.flatten) :
    (processLine parse st line).full = (processLine parse st line).toks.flatten := by
  unfold processLine
  by_cases he : (trimL line).isEmpty = true
  · rw [if_pos he]
    exact h
  · rw [if_neg he]
    cases hp : parse (trimL line) with
    | none => exact h
    | some payload =>
      by_cases hct : payload.content.isEmpty = true <;>
        by_cases hd : payload.done = true <;>
        simp [hct, hd, h]

theorem flushLines_tokens (parse : JStr → Option StreamPayload) :
    ∀ (f : Nat) (st : StreamState), st.full = st.toks.flatten →
    (flushLines parse f st).full = (flushLines parse f st).toks.flatten := by
  intro f
  induction f with
  | zero => intro st h; exact h
  | succ f ih =>
    intro st h
    rw [flushLines]
    by_cases herr : st.err.isSome = true
    · rw [if_pos herr]
      exact h
    · rw [if_neg herr]
      cases hs : splitAtNewline st.buffer with
      | none => exact h
      | some p =>
        cases p with
        | mk line rest =>
          dsimp only
          set st1 := processLine parse { st with buffer := rest } line with hst1
          have h1 : st1.full = st1.toks.flatten := by
            rw [hst1]
            exact processLine_tokens parse _ line h
          by_cases h1e : st1.err.isSome = true
          · rw [if_pos h1e]
            exact h1
          · rw [if_neg h1e]
            by_cases h1f : st1.finished = true
            · rw [if_pos h1f]
              exact h1
            · rw [if_neg h1f]
              exact ih st1 h1

theorem flushBufferM_tokens (parse : JStr → Option StreamPayload) (force : Bool)
    (st : StreamState) (h : st.full = st.toks.flatten) :
    (flushBufferM parse force st).full = (flushBufferM parse force st).toks.flatten := by
  have h1 : (flushAll parse st).full = (flushAll parse st).toks.flatten :=
    flushLines_tokens parse (st.buffer.length + 1) st h
  unfold flushBufferM
  dsimp only
  split
  · exact h1
  · split
    · exact processLine_tokens parse _ _ h1
    · exact h1

theorem runChunks_tokens (parse : JStr → Option StreamPayload) :
    ∀ (cs : List JStr) (st : StreamState), st.full = st.toks.flatten →
    (runChunks parse st cs).full = (runChunks parse st cs).toks.flatten := by
  intro cs
  induction cs with
  | nil => intro st h; exact h
  | cons c cs ih =>
    intro st h
    rw [runChunks]
    split
    · exact h
    · exact ih _ (flushBufferM_tokens parse false _ h)

/-- C5.  For a fixed logical byte stream, `streamOllamaChat` returns
the same outcome no matter how the stream is split into chunks (partial
lines are buffered across reads and a trailing partial line is flushed
at end of stream), and on success the returned full text equals the
concatenation of all fragments delivered to `onToken`. -/
theorem stream_chunk_invariance (parse : JStr → Option StreamPayload) (chunks : List JStr) :
    streamOllamaChat parse chunks = streamOllamaChat parse [chunks.flatten]
    ∧ ∀ full toks, streamOllamaChat parse chunks = .ok (full, toks) →
        full = toks.flatten := by
  constructor
  · unfold streamOllamaChat
    rw [runChunks_join parse chunks initialStreamState rfl rfl]
  · intro full toks h
    unfold streamOllamaChat at h
    dsimp only at h
    set st := runChunks parse initialStreamState chunks with hst
    have hinv : st.full = st.toks.flatten := by
      rw [hst]
      exact runChunks_tokens parse chunks initialStreamState rfl
    cases he : st.err with
    | some e =>
      rw [he] at h
      simp at h
    | none =>
      rw [he] at h
      set st2 := flushBufferM parse true st with hst2
      have hinv2 : st2.full = st2.toks.flatten := by
        rw [hst2]
        exact flushBufferM_tokens parse true st hinv
      cases he2 : st2.err with
      | some e =>
        rw [he2] at h
        simp at h
      | none =>
        rw [he2] at h
        by_cases hf : st2.finished = true
        · rw [if_pos hf] at h
          simp only [Except.ok.injEq, Prod.mk.injEq] at h
          rw [← h.1, ← h.2]
          exact hinv2
        · rw [if_neg hf] at h
          simp at h


/-- Witness for C5: a two-chunk split of the stream
`"a\nb\nd"` produces the same result as the unsplit stream, and the
returned text is the concatenation of the delivered fragments. -/
theorem stream_chunk_invariance_witness :
    streamOllamaChat parseW ["a\nb".data, "\nd".data] =
      streamOllamaChat parseW [(["a\nb".data, "\nd".data] : List JStr).flatten]
    ∧ "Hello!".data = (["Hel".data, "lo".data, "!".data] : List JStr).flatten := by
  constructor
  · exact (stream_chunk_invariance parseW ["a\nb".data, "\nd".data]).1
  · exact (stream_chunk_invariance parseW ["a\nb".data, "\nd".data]).2 "Hello!".data
      ["Hel".data, "lo".data, "!".data] rfl
